import Mathlib

/-!
Verification development for the Perp Scan single-page dashboard
(`src/FEperp_scan_v_1.jsx`).  JavaScript strings are modelled as lists of
Unicode scalar values (`List Char`), JavaScript numbers as exact rationals,
and the browser platform primitives (fetch, JSON parsing, the URL fragment
setter, `URLSearchParams` decoding) as executable Lean functions following
their WHATWG specifications.  The view logic of the Dashboard component is
modelled as pure state-transition and rendering functions.
-/

namespace PerpScan

/-- Characters of a JavaScript string, modelled as a list of Unicode scalar values. -/
abbrev JStr := List Char

/-- Coerce a Lean string literal into the character-list model. -/
def str (s : String) : JStr := s.data

/-- JavaScript `a || b` where `a` is a nullable string: `null`/`undefined` and
the empty string are falsy and fall through to `b`. -/
def jsOrS (a : Option JStr) (b : JStr) : JStr :=
  match a with
  | some s => if s = [] then b else s
  | none => b

/-- JavaScript `String.prototype.split` with a single-character separator:
`"".split(sep)` is `[""]`, and separators at the ends produce empty pieces. -/
def splitOnChar (sep : Char) : JStr → List JStr
  | [] => [[]]
  | c :: rest =>
    match splitOnChar sep rest with
    | [] => [[]]
    | h :: t => if c = sep then [] :: h :: t else (c :: h) :: t

/-- Prepend a separator-free prefix onto the first piece of a split result. -/
def consHead (pre : JStr) : List JStr → List JStr
  | [] => [pre]
  | h :: t => (pre ++ h) :: t

/-- Replacement character U+FFFD produced by WHATWG UTF-8 decoding on error. -/
def repl : Char := Char.ofNat 0xFFFD

/-- UTF-8 continuation byte test (`0x80..0xBF`). -/
def contOK (b : Nat) : Bool := 0x80 ≤ b && b ≤ 0xBF

/-- First continuation byte of a three-byte sequence: the lead byte `0xE0`
forbids overlong encodings and the lead byte `0xED` forbids surrogates. -/
def cont3OK (b0 b1 : Nat) : Bool :=
  contOK b1 && !(b0 == 0xE0 && b1 < 0xA0) && !(b0 == 0xED && 0x9F < b1)

/-- First continuation byte of a four-byte sequence: the lead byte `0xF0`
forbids overlong encodings and the lead byte `0xF4` forbids values above
U+10FFFF. -/
def cont4OK (b0 b1 : Nat) : Bool :=
  contOK b1 && !(b0 == 0xF0 && b1 < 0x90) && !(b0 == 0xF4 && 0x8F < b1)

/-- WHATWG UTF-8 decoding of a byte sequence; malformed input yields U+FFFD. -/
def utf8Decode : List Nat → JStr
  | [] => []
  | [b0] =>
    if b0 < 0x80 then [Char.ofNat b0] else [repl]
  | [b0, b1] =>
    if b0 < 0x80 then Char.ofNat b0 :: utf8Decode [b1]
    else if b0 < 0xC2 then repl :: utf8Decode [b1]
    else if b0 < 0xE0 then
      if contOK b1 then [Char.ofNat ((b0 - 0xC0) * 64 + (b1 - 0x80))]
      else repl :: utf8Decode [b1]
    else if b0 < 0xF5 then [repl]
    else repl :: utf8Decode [b1]
  | [b0, b1, b2] =>
    if b0 < 0x80 then Char.ofNat b0 :: utf8Decode [b1, b2]
    else if b0 < 0xC2 then repl :: utf8Decode [b1, b2]
    else if b0 < 0xE0 then
      if contOK b1 then Char.ofNat ((b0 - 0xC0) * 64 + (b1 - 0x80)) :: utf8Decode [b2]
      else repl :: utf8Decode [b1, b2]
    else if b0 < 0xF0 then
      if cont3OK b0 b1 && contOK b2 then
        [Char.ofNat ((b0 - 0xE0) * 4096 + (b1 - 0x80) * 64 + (b2 - 0x80))]
      else repl :: utf8Decode [b1, b2]
    else if b0 < 0xF5 then [repl]
    else repl :: utf8Decode [b1, b2]
  | b0 :: b1 :: b2 :: b3 :: bs =>
    if b0 < 0x80 then Char.ofNat b0 :: utf8Decode (b1 :: b2 :: b3 :: bs)
    else if b0 < 0xC2 then repl :: utf8Decode (b1 :: b2 :: b3 :: bs)
    else if b0 < 0xE0 then
      if contOK b1 then Char.ofNat ((b0 - 0xC0) * 64 + (b1 - 0x80)) :: utf8Decode (b2 :: b3 :: bs)
      else repl :: utf8Decode (b1 :: b2 :: b3 :: bs)
    else if b0 < 0xF0 then
      if cont3OK b0 b1 && contOK b2 then
        Char.ofNat ((b0 - 0xE0) * 4096 + (b1 - 0x80) * 64 + (b2 - 0x80)) :: utf8Decode (b3 :: bs)
      else repl :: utf8Decode (b1 :: b2 :: b3 :: bs)
    else if b0 < 0xF5 then
      if cont4OK b0 b1 && contOK b2 && contOK b3 then
        Char.ofNat ((b0 - 0xF0) * 262144 + (b1 - 0x80) * 4096 + (b2 - 0x80) * 64 + (b3 - 0x80))
          :: utf8Decode bs
      else repl :: utf8Decode (b1 :: b2 :: b3 :: bs)
    else repl :: utf8Decode (b1 :: b2 :: b3 :: bs)

/-- UTF-8 encoding of one Unicode scalar value. -/
def utf8Bytes (c : Char) : List Nat :=
  if c.toNat < 0x80 then [c.toNat]
  else if c.toNat < 0x800 then [0xC0 + c.toNat / 64, 0x80 + c.toNat % 64]
  else if c.toNat < 0x10000 then
    [0xE0 + c.toNat / 4096, 0x80 + c.toNat / 64 % 64, 0x80 + c.toNat % 64]
  else
    [0xF0 + c.toNat / 262144, 0x80 + c.toNat / 4096 % 64, 0x80 + c.toNat / 64 % 64,
      0x80 + c.toNat % 64]

/-- UTF-8 encoding of a whole string. -/
def utf8Encode : JStr → List Nat
  | [] => []
  | c :: rest => utf8Bytes c ++ utf8Encode rest

/-- Uppercase hexadecimal digit, as emitted by `encodeURIComponent`. -/
def hexDigit (n : Nat) : Char := if n < 10 then Char.ofNat (48 + n) else Char.ofNat (55 + n)

/-- Value of a hexadecimal digit character (either case), if it is one. -/
def hexVal (c : Char) : Option Nat :=
  if 48 ≤ c.toNat && c.toNat ≤ 57 then some (c.toNat - 48)
  else if 65 ≤ c.toNat && c.toNat ≤ 70 then some (c.toNat - 55)
  else if 97 ≤ c.toNat && c.toNat ≤ 102 then some (c.toNat - 87)
  else none

/-- Percent-escape of one byte (`%XY` with uppercase hex digits). -/
def percentEncodeByte (b : Nat) : JStr := ['%', hexDigit (b / 16), hexDigit (b % 16)]

/-- Characters left unescaped by JavaScript `encodeURIComponent`:
`A-Z a-z 0-9 - _ . ! ~ * ' ( )`. -/
def unreservedURI (c : Char) : Bool :=
  c.isAlphanum || c == '-' || c == '_' || c == '.' || c == '!' || c == '~' ||
    c == '*' || c == Char.ofNat 39 || c == '(' || c == ')'

/-- JavaScript `encodeURIComponent`: unreserved characters pass through, every
other character is replaced by the percent-escapes of its UTF-8 bytes. -/
def encodeURIComponent : JStr → JStr
  | [] => []
  | c :: rest =>
    (if unreservedURI c then [c] else (utf8Bytes c).flatMap percentEncodeByte) ++
      encodeURIComponent rest

/-- Percent-decoding into a byte sequence, as in the
`application/x-www-form-urlencoded` parser: a `%` followed by two hex digits
becomes that byte, any other character contributes its UTF-8 bytes. -/
def percentDecodeBytes : JStr → List Nat
  | [] => []
  | c :: rest =>
    if c == '%' then
      match rest with
      | h1 :: h2 :: rest2 =>
        match hexVal h1, hexVal h2 with
        | some a, some b => (16 * a + b) :: percentDecodeBytes rest2
        | _, _ => utf8Bytes c ++ percentDecodeBytes (h1 :: h2 :: rest2)
      | [] => utf8Bytes c
      | [h1] => utf8Bytes c ++ percentDecodeBytes [h1]
    else utf8Bytes c ++ percentDecodeBytes rest

/-- The `+`-to-space substitution of `application/x-www-form-urlencoded`. -/
def plusToSpace (s : JStr) : JStr := s.map (fun c => if c = '+' then ' ' else c)

/-- Decoding of one `URLSearchParams` name or value. -/
def spDecode (s : JStr) : JStr := utf8Decode (percentDecodeBytes (plusToSpace s))

/-- The `URLSearchParams` constructor drops one leading `?`. -/
def stripLeadQ (s : JStr) : JStr :=
  match s with
  | '?' :: r => r
  | s => s

/-- Parsing of a query string by the `URLSearchParams` constructor: split on
`&`, drop empty pieces, split each piece at its first `=` (a piece without `=`
is a name with empty value), and form-urlencoded-decode names and values. -/
def parseQS (s : JStr) : List (JStr × JStr) :=
  (splitOnChar '&' (stripLeadQ s)).filterMap fun piece =>
    if piece.isEmpty then none
    else
      let k := piece.takeWhile (fun c => !(c == '='))
      let v := piece.dropWhile (fun c => !(c == '='))
      some (spDecode k, spDecode (v.drop 1))

/-- First value stored under a name, as `URLSearchParams.get` (absent ↦ null). -/
def qsGet (pairs : List (JStr × JStr)) (name : JStr) : Option JStr :=
  (pairs.find? (fun kv => kv.1 == name)).map (fun kv => kv.2)

/-- Dropping of one leading `#`, as `hash.replace(/^#/, "")`. -/
def stripHash (s : JStr) : JStr :=
  match s with
  | '#' :: r => r
  | s => s

/-- Routes of the application: the home page or an account dashboard. -/
inductive Route
  | home (qs : List (JStr × JStr))
  | acct (addr : JStr) (qs : List (JStr × JStr))
deriving DecidableEq

/-- Is this the home route? -/
def Route.isHome : Route → Bool
  | .home _ => true
  | .acct _ _ => false

/-- Address carried by an account route. -/
def routeAddr : Route → Option JStr
  | .home _ => none
  | .acct a _ => some a

/-- Query parameters carried by a route. -/
def routeQS : Route → List (JStr × JStr)
  | .home q => q
  | .acct _ q => q

/-- Model of `parseRoute` (src/FEperp_scan_v_1.jsx lines 40-48): strip one
leading `#`, split on `?` into path and query string, split the path on `/`
dropping empty segments, and produce an account route exactly when the first
segment is `acct` and a second segment exists. -/
def parseRoute (hash : JStr) : Route :=
  let clean := stripHash hash
  let pieces := splitOnChar '?' clean
  let path := pieces.headD []
  let queryStr := (pieces.drop 1).headD []
  let qs := parseQS queryStr
  let parts := (splitOnChar '/' path).filter (fun s => !s.isEmpty)
  match parts with
  | p0 :: p1 :: _ => if p0 = str "acct" then Route.acct p1 qs else Route.home qs
  | _ => Route.home qs

/-- Spec-side route pattern, modelled from the specification's words: the
fragment, after the leading `#` marker and with any trailing query string
removed, has a first (non-empty) path segment that is the literal `acct`
followed by a non-empty second segment. -/
def acctFragment (f : JStr) : Bool :=
  let path := (splitOnChar '?' (stripHash f)).headD []
  let segs := (splitOnChar '/' path).filter (fun s => !s.isEmpty)
  match segs with
  | s0 :: _ :: _ => s0 == str "acct"
  | _ => false

/-- Characters that can occur in `encodeURIComponent` output: unreserved
characters, `%`, or hexadecimal digits `0-9` / `A-F`. -/
def encOut (c : Char) : Prop :=
  unreservedURI c = true ∨ c = '%' ∨ (48 ≤ c.toNat ∧ c.toNat ≤ 57) ∨
    (65 ≤ c.toNat ∧ c.toNat ≤ 70)

/-- Percent-escaping applied by the WHATWG URL fragment setter (`u.hash = ...`):
characters in the fragment percent-encode set (C0 controls, characters above
U+007E, space, `"`, `<`, `>`, backtick) are replaced by the percent-escapes of
their UTF-8 bytes; every other character passes through. -/
def fragEncodeChar (c : Char) : JStr :=
  if c.toNat < 0x20 || 0x7E < c.toNat || c == ' ' || c == Char.ofNat 34 || c == '<' ||
      c == '>' || c == Char.ofNat 96 then
    (utf8Bytes c).flatMap percentEncodeByte
  else [c]

/-- Fragment encoding of a whole string. -/
def fragEncode : JStr → JStr
  | [] => []
  | c :: rest => fragEncodeChar c ++ fragEncode rest

/-- Model of `shareUrl` (src/FEperp_scan_v_1.jsx lines 49-53), restricted to
the fragment of the produced URL: the code assigns
`#/acct/${addr}?base=${encodeURIComponent(baseUrl)}` to `u.hash`, whose setter
strips the leading `#` and applies the fragment percent-encode set, and
`u.toString()` re-attaches `#`. -/
def shareUrlHash (addr baseUrl : JStr) : JStr :=
  str "#/acct/" ++ fragEncode addr ++ str "?base=" ++ encodeURIComponent baseUrl

/-- Address characters that survive the share-link round trip: printable ASCII
that the fragment setter leaves unescaped and that does not collide with the
`/` path separator or the `?` query separator. -/
def addrSafeChar (c : Char) : Bool :=
  0x21 ≤ c.toNat && c.toNat ≤ 0x7E && !(c == Char.ofNat 34) && !(c == '<') &&
    !(c == '>') && !(c == Char.ofNat 96) && !(c == '/') && !(c == '?')

/-- JavaScript values reaching the numeric formatters, after `+v` coercion:
null/undefined (checked by `v == null` before coercion), a non-finite
coercion (`NaN`, `Infinity`, `-Infinity`), or a finite value modelled as an
exact rational. -/
inductive JNum
  | undef
  | nullv
  | nan
  | posInf
  | negInf
  | fin (q : ℚ)
deriving DecidableEq

/-- Decimal digit string of a natural number. -/
def natDigits (n : Nat) : JStr := Nat.toDigits 10 n

/-- Left-pad a digit string with zeros to at least the given length. -/
def padLeftZeros (s : JStr) (len : Nat) : JStr := List.replicate (len - s.length) '0' ++ s

/-- ECMAScript `Number.prototype.toFixed` on a non-negative value: the integer
closest to `x * 10 ^ f` (ties toward the larger) rendered with a decimal point
`f` digits from the right. -/
def jsToFixedNN (f : Nat) (x : ℚ) : JStr :=
  let n : Nat := (Rat.floor (x * (10 : ℚ) ^ f + 1 / 2)).toNat
  if f = 0 then natDigits n
  else
    let ds := padLeftZeros (natDigits n) (f + 1)
    ds.take (ds.length - f) ++ '.' :: ds.drop (ds.length - f)

/-- ECMAScript `toFixed`: negative values format as the sign plus the
formatted magnitude. -/
def jsToFixed (f : Nat) (x : ℚ) : JStr :=
  if x < 0 then '-' :: jsToFixedNN f (-x) else jsToFixedNN f x

/-- Grouping helper walking a reversed digit string, inserting a comma after
every third digit. -/
def groupRev : Nat → JStr → JStr
  | _, [] => []
  | 0, c :: rest => ',' :: c :: groupRev 2 rest
  | Nat.succ k, c :: rest => c :: groupRev k rest

/-- Thousands grouping of an integer digit string. -/
def groupThousands (s : JStr) : JStr := (groupRev 3 s.reverse).reverse

/-- `toLocaleString(undefined, {maximumFractionDigits: d, minimumFractionDigits:
d})` for a non-negative finite value, under an en-US-style host locale:
half-away-from-zero rounding to exactly `d` fraction digits, with thousands
grouping on the integer part. -/
def localeNumNN (d : Nat) (x : ℚ) : JStr :=
  let n : Nat := (Rat.floor (x * (10 : ℚ) ^ d + 1 / 2)).toNat
  if d = 0 then groupThousands (natDigits n)
  else
    let ds := padLeftZeros (natDigits n) (d + 1)
    groupThousands (ds.take (ds.length - d)) ++ '.' :: ds.drop (ds.length - d)

/-- Locale formatting of a finite value with sign. -/
def localeNum (d : Nat) (x : ℚ) : JStr :=
  if x < 0 then '-' :: localeNumNN d (-x) else localeNumNN d x

/-- Model of `num` (src/FEperp_scan_v_1.jsx line 31): null/undefined or a
non-finite coercion yields the empty string; a finite value is locale
formatted with exactly `d` fraction digits. -/
def num (v : JNum) (d : Nat) : JStr :=
  match v with
  | .fin q => localeNum d q
  | _ => []

/-- Model of `pct` (src/FEperp_scan_v_1.jsx line 32): null/undefined or a
non-finite coercion yields the empty string; a finite value `q` is multiplied
by 100 when `|q| <= 1`, rendered with `toFixed(2)`, and suffixed with `%`. -/
def pct (v : JNum) : JStr :=
  match v with
  | .fin q => jsToFixed 2 (if |q| <= 1 then q * 100 else q) ++ ['%']
  | _ => []

/-- Inputs on which C9 asserts empty output: null/undefined or a non-finite
numeric coercion. -/
def JNum.nonFinite : JNum → Bool
  | .fin _ => false
  | _ => true

/-- Built-in default API base URL (src/FEperp_scan_v_1.jsx line 17). -/
def DEFAULT_BASE : JStr := str "https://perp-scan-live.liam-alerts.workers.dev"

/-- Built-in reporting periods (line 18), used to populate the period
selection control. -/
def BUILT_IN_PERIODS : List JStr :=
  [str "day", str "week", str "month", str "allTime", str "perpDay", str "perpWeek",
    str "perpMonth", str "perpAllTime"]

/-- Initial base URL on Dashboard mount (line 100):
`qs.get("base") || localStorage.getItem("ps_base") || DEFAULT_BASE`. -/
def initBaseUrl (qs : List (JStr × JStr)) (storedBase : Option JStr) : JStr :=
  jsOrS (qsGet qs (str "base")) (jsOrS storedBase DEFAULT_BASE)

/-- Initial period on Dashboard mount (line 101): `qs.get("period") || "week"`.
No persisted preference is consulted and no membership check against
`BUILT_IN_PERIODS` is performed. -/
def initPeriod (qs : List (JStr × JStr)) : JStr :=
  jsOrS (qsGet qs (str "period")) (str "week")

/-- Payload fields of a parsed `/pnlClean` JSON response that the claims
depend on: the `ok` flag, the optional `error` string, and the `positions` /
`closed` arrays.  Rows are kept opaque because only their presence in the
rendered tables matters to the claims. -/
structure JsonResp where
  ok : Bool
  error : Option JStr
  positions : List Nat
  closed : List Nat
deriving DecidableEq

/-- Result of reading the response body: valid JSON or a parse failure with
the platform's message. -/
inductive BodyParse
  | parsed (j : JsonResp)
  | invalid (msg : JStr)
deriving DecidableEq

/-- Outcome of one network attempt as seen by `fetchJson`: an HTTP response
that arrived before the 15 s timer fired (with status and body), a timeout
abort, or a network failure; abort and network messages are produced by the
platform. -/
inductive NetBehavior
  | http (status : Nat) (body : BodyParse)
  | timeout (msg : JStr)
  | netError (msg : JStr)
deriving DecidableEq

/-- `Response.ok`: HTTP status in the inclusive success range 200-299. -/
def httpOk (status : Nat) : Bool := 200 ≤ status && status ≤ 299

/-- Decimal rendering of a natural number, as in template interpolation. -/
def natToStr (n : Nat) : JStr := Nat.toDigits 10 n

/-- Message of the error thrown on a non-success status: `HTTP <status>`. -/
def strHTTP (status : Nat) : JStr := str "HTTP " ++ natToStr status

/-- Model of `fetchJson` (src/FEperp_scan_v_1.jsx lines 21-30): succeeds with
the parsed body exactly when the response arrived with a success status and a
JSON body; a non-success status throws `HTTP <status>`; a non-JSON body
propagates the parse failure; timeout aborts and network failures propagate
their messages. -/
def fetchJson (n : NetBehavior) : Except JStr JsonResp :=
  match n with
  | .http status body =>
    if httpOk status then
      match body with
      | .parsed j => Except.ok j
      | .invalid m => Except.error m
    else Except.error (strHTTP status)
  | .timeout m => Except.error m
  | .netError m => Except.error m

/-- Dashboard component state relevant to the claims. -/
structure DashState where
  baseUrl : JStr
  period : JStr
  includePositions : Bool
  includeClosed : Bool
  loading : Bool
  error : JStr
  data : Option JsonResp
deriving DecidableEq

/-- Dashboard state on mount (lines 100-106): base URL and period resolved
from query string and stored preference, both toggles on, not loading, no
error, no data. -/
def initDashState (qs : List (JStr × JStr)) (storedBase : Option JStr) : DashState :=
  { baseUrl := initBaseUrl qs storedBase, period := initPeriod qs,
    includePositions := true, includeClosed := true,
    loading := false, error := [], data := none }

/-- `e?.message || String(e)` in the catch handler: an empty message falls
back to the (non-empty) default string rendering of the error object. -/
def errDisplay (m : JStr) : JStr := if m = [] then str "Error" else m

/-- Start of `run()` (line 111): `setLoading(true); setError(""); setData(null)`. -/
def runStart (st : DashState) : DashState :=
  { st with loading := true, error := [], data := none }

/-- Settling of `run()` (lines 117-121): a fetch failure displays the caught
message; a parsed response with `ok` false displays the thrown
`json.error || "ok=false"`; a response with `ok` true is stored; the `finally`
clause clears the loading flag on every path. -/
def runSettle (st : DashState) (n : NetBehavior) : DashState :=
  match fetchJson n with
  | Except.ok j =>
    if j.ok then { st with data := some j, loading := false }
    else { st with error := errDisplay (jsOrS j.error (str "ok=false")), loading := false }
  | Except.error m => { st with error := errDisplay m, loading := false }

/-- One whole `run()` call: clear state, fetch, settle. -/
def run (st : DashState) (n : NetBehavior) : DashState := runSettle (runStart st) n

/-- Failure classification of one fetch attempt, including the
application-level `ok:false` path. -/
def fetchFails (n : NetBehavior) : Bool :=
  match fetchJson n with
  | Except.ok j => !j.ok
  | Except.error _ => true

/-- Rendered interface elements of the Dashboard that the claims mention. -/
inductive UIElem
  | shareButton
  | changeAddressLink
  | baseUrlInput (value : JStr)
  | periodSelect (value : JStr)
  | positionsSwitch (enabled : Bool)
  | closedSwitch (enabled : Bool)
  | fetchButton (busy : Bool)
  | closedCsvButton
  | positionsCsvButton
  | errorBanner (msg : JStr)
  | summaryCards
  | positionsTable (rows : List Nat)
  | closedTable (rows : List Nat)
  | emptyPrompt
deriving DecidableEq

/-- Model of the Dashboard JSX tree (lines 133-306), flattened in document
order: the CSV export row renders only under `includeClosed`, with the
Positions CSV button further gated by `includePositions` (lines 175-180); the
error banner renders when the error string is non-empty (line 185); the data
section renders the summary cards plus the toggled tables (lines 193-297); the
prompt renders when there is no data, no load in progress and no error
(line 299). -/
def renderDashboard (st : DashState) : List UIElem :=
  [UIElem.shareButton, UIElem.changeAddressLink, UIElem.baseUrlInput st.baseUrl,
    UIElem.periodSelect st.period, UIElem.positionsSwitch st.includePositions,
    UIElem.closedSwitch st.includeClosed, UIElem.fetchButton st.loading] ++
  (if st.includeClosed then
    UIElem.closedCsvButton ::
      (if st.includePositions then [UIElem.positionsCsvButton] else [])
  else []) ++
  (if st.error.isEmpty then [] else [UIElem.errorBanner st.error]) ++
  (match st.data with
   | some j =>
     UIElem.summaryCards ::
       ((if st.includePositions then [UIElem.positionsTable j.positions] else []) ++
        (if st.includeClosed then [UIElem.closedTable j.closed] else []))
   | none => []) ++
  (match st.data with
   | none => if st.loading || !st.error.isEmpty then [] else [UIElem.emptyPrompt]
   | some _ => [])

/-- Sample payload used by concrete witnesses. -/
def sampleResp : JsonResp := { ok := true, error := none, positions := [1], closed := [2] }

/-- Payload of the spec's `ok:false` scenario. -/
def respBadAccount : JsonResp :=
  { ok := false, error := some (str "bad account"), positions := [], closed := [] }

/-- Dashboard state with data loaded, positions on and closed off. -/
def stClosedOff : DashState :=
  { initDashState [] none with includeClosed := false, data := some sampleResp }

/-- Application-level model for the stale-response hazard: the current route
address (`none` = home), the mounted Dashboard state (React keeps the same
component instance, state included, while the route stays on the account
view), and the account an in-flight fetch was issued for. -/
structure AppModel where
  routeAddr : Option JStr
  dash : DashState
  pending : Option JStr
deriving DecidableEq

/-- User-visible events of the application loop. -/
inductive AppEvent
  | clickFetch
  | hashChange (newRoute : Option JStr)
  | response (n : NetBehavior)
deriving DecidableEq

/-- Event semantics mirroring `App` (lines 56-60) and `Dashboard`: a fetch
click starts `run()` for the current address; a hash change re-renders with
the new route — the Dashboard instance and its state persist across
account-to-account navigation, and a fresh mount occurs when entering from
home; a pending response settles `run()` unconditionally, because the code
contains no check that the response still belongs to the current route. -/
def appStep (m : AppModel) (e : AppEvent) : AppModel :=
  match e with
  | AppEvent.clickFetch =>
    match m.routeAddr with
    | some a => { m with dash := runStart m.dash, pending := some a }
    | none => m
  | AppEvent.hashChange r =>
    match m.routeAddr, r with
    | some _, some _ => { m with routeAddr := r }
    | _, _ =>
      { m with routeAddr := r,
               dash := if r.isSome then initDashState [] none else m.dash }
  | AppEvent.response n =>
    match m.pending with
    | some _ => { m with dash := runSettle m.dash n, pending := none }
    | none => m

/-- Payload answering the request issued for account `0xA`. -/
def staleResponse : JsonResp := { ok := true, error := none, positions := [7], closed := [9] }

/-- The stale-response scenario: mounted at `#/acct/0xA`, Fetch clicked,
navigation to `#/acct/0xB` while the request is pending, then the response
for `0xA` arrives. -/
def staleTrace : AppModel :=
  appStep (appStep (appStep
    { routeAddr := some (str "0xA"), dash := initDashState [] none, pending := none }
    AppEvent.clickFetch)
    (AppEvent.hashChange (some (str "0xB"))))
    (AppEvent.response (NetBehavior.http 200 (BodyParse.parsed staleResponse)))

theorem splitOnChar_ne_nil (sep : Char) (l : JStr) : splitOnChar sep l ≠ [] := by
  cases l with
  | nil => simp [splitOnChar]
  | cons c rest =>
    simp only [splitOnChar]
    cases h : splitOnChar sep rest with
    | nil => simp
    | cons a t => by_cases hc : c = sep <;> simp [hc]

theorem splitOnChar_append_left (sep : Char) (l₁ l₂ : JStr)
    (h : ∀ c ∈ l₁, c ≠ sep) :
    splitOnChar sep (l₁ ++ l₂) = consHead l₁ (splitOnChar sep l₂) := by
  induction l₁ with
  | nil =>
    simp only [List.nil_append, consHead]
    cases hs : splitOnChar sep l₂ with
    | nil => exact absurd hs (splitOnChar_ne_nil sep l₂)
    | cons a t => simp
  | cons c rest ih =>
    have hc : c ≠ sep := h c (List.mem_cons_self c rest)
    have hrest : ∀ x ∈ rest, x ≠ sep := fun x hx => h x (List.mem_cons_of_mem c hx)
    show (match splitOnChar sep (rest ++ l₂) with
          | [] => [[]]
          | h :: t => if c = sep then [] :: h :: t else (c :: h) :: t) = _
    rw [ih hrest]
    cases hs : splitOnChar sep l₂ with
    | nil => exact absurd hs (splitOnChar_ne_nil sep l₂)
    | cons a t => simp [consHead, hc]

theorem splitOnChar_no_sep (sep : Char) (l : JStr) (h : ∀ c ∈ l, c ≠ sep) :
    splitOnChar sep l = [l] := by
  have := splitOnChar_append_left sep l [] h
  simpa [consHead, splitOnChar] using this

theorem splitOnChar_sep_cons (sep : Char) (l : JStr) :
    splitOnChar sep (sep :: l) = [] :: splitOnChar sep l := by
  simp only [splitOnChar]
  cases hs : splitOnChar sep l with
  | nil => exact absurd hs (splitOnChar_ne_nil sep l)
  | cons a t => simp

theorem splitOnChar_append_sep (sep : Char) (l₁ l₂ : JStr)
    (h : ∀ c ∈ l₁, c ≠ sep) :
    splitOnChar sep (l₁ ++ sep :: l₂) = l₁ :: splitOnChar sep l₂ := by
  rw [splitOnChar_append_left sep l₁ (sep :: l₂) h, splitOnChar_sep_cons]
  simp [consHead]

/-- C1: for every navigation fragment string `f`, `parseRoute f` yields the
home route exactly when `f` does not match the `#/acct/<nonempty>` pattern
(first path segment the literal `acct` followed by a non-empty second
segment), regardless of any trailing query string.  `parseRoute` is a total
function, so it never fails on malformed input. -/
theorem C1_parseRoute_home_unless_acct (f : JStr) :
    (parseRoute f).isHome = true ↔ acctFragment f = false := by
  have key : ∀ (parts : List JStr) (qs : List (JStr × JStr)),
      (match parts with
        | p0 :: p1 :: _ => if p0 = str "acct" then Route.acct p1 qs else Route.home qs
        | _ => Route.home qs).isHome = true
      ↔ (match parts with
        | s0 :: _ :: _ => s0 == str "acct"
        | _ => false) = false := by
    intro parts qs
    match parts with
    | [] => simp [Route.isHome]
    | [p0] => simp [Route.isHome]
    | p0 :: p1 :: t => by_cases h : p0 = str "acct" <;> simp [h, Route.isHome]
  exact key
    ((splitOnChar '/' ((splitOnChar '?' (stripHash f)).headD [])).filter
      (fun s => !s.isEmpty))
    (parseQS (((splitOnChar '?' (stripHash f)).drop 1).headD []))

theorem char_valid_nat (c : Char) :
    c.toNat < 0xD800 ∨ (0xDFFF < c.toNat ∧ c.toNat < 0x110000) := c.valid

theorem char_toNat_lt (c : Char) : c.toNat < 0x110000 := by
  rcases char_valid_nat c with h | h <;> omega

theorem utf8Bytes_lt_256 (c : Char) : ∀ b ∈ utf8Bytes c, b < 256 := by
  have hc := char_toNat_lt c
  unfold utf8Bytes
  split_ifs with h1 h2 h3 <;> intro b hb <;>
    simp only [List.mem_cons, List.mem_singleton, List.not_mem_nil, or_false] at hb <;>
    omega

theorem hexVal_hexDigit (n : Nat) (h : n < 16) : hexVal (hexDigit n) = some n := by
  have key : ∀ m, m < 16 → hexVal (hexDigit m) = some m := by decide
  exact key n h

theorem hexDigit_range (n : Nat) (h : n < 16) :
    (48 ≤ (hexDigit n).toNat ∧ (hexDigit n).toNat ≤ 57) ∨
    (65 ≤ (hexDigit n).toNat ∧ (hexDigit n).toNat ≤ 70) := by
  have key : ∀ m, m < 16 →
      (48 ≤ (hexDigit m).toNat ∧ (hexDigit m).toNat ≤ 57) ∨
      (65 ≤ (hexDigit m).toNat ∧ (hexDigit m).toNat ≤ 70) := by decide
  exact key n h

theorem utf8Decode_one (b0 : Nat) (bs : List Nat) (h : b0 < 0x80) :
    utf8Decode (b0 :: bs) = Char.ofNat b0 :: utf8Decode bs := by
  rcases bs with _ | ⟨b1, _ | ⟨b2, _ | ⟨b3, bs'⟩⟩⟩ <;> simp [utf8Decode, h]

theorem utf8Decode_two (b0 b1 : Nat) (bs : List Nat)
    (h0 : 0xC2 ≤ b0) (h0' : b0 < 0xE0) (h1 : contOK b1 = true) :
    utf8Decode (b0 :: b1 :: bs) =
      Char.ofNat ((b0 - 0xC0) * 64 + (b1 - 0x80)) :: utf8Decode bs := by
  have e1 : ¬(b0 < 0x80) := by omega
  have e2 : ¬(b0 < 0xC2) := by omega
  rcases bs with _ | ⟨b2, _ | ⟨b3, bs'⟩⟩ <;> simp [utf8Decode, e1, e2, h0', h1]

theorem utf8Decode_three (b0 b1 b2 : Nat) (bs : List Nat)
    (h0 : 0xE0 ≤ b0) (h0' : b0 < 0xF0) (h1 : cont3OK b0 b1 = true) (h2 : contOK b2 = true) :
    utf8Decode (b0 :: b1 :: b2 :: bs) =
      Char.ofNat ((b0 - 0xE0) * 4096 + (b1 - 0x80) * 64 + (b2 - 0x80)) :: utf8Decode bs := by
  have e1 : ¬(b0 < 0x80) := by omega
  have e2 : ¬(b0 < 0xC2) := by omega
  have e3 : ¬(b0 < 0xE0) := by omega
  rcases bs with _ | ⟨b3, bs'⟩ <;> simp [utf8Decode, e1, e2, e3, h0', h1, h2]

theorem utf8Decode_four (b0 b1 b2 b3 : Nat) (bs : List Nat)
    (h0 : 0xF0 ≤ b0) (h0' : b0 < 0xF5)
    (h1 : cont4OK b0 b1 = true) (h2 : contOK b2 = true) (h3 : contOK b3 = true) :
    utf8Decode (b0 :: b1 :: b2 :: b3 :: bs) =
      Char.ofNat ((b0 - 0xF0) * 262144 + (b1 - 0x80) * 4096 + (b2 - 0x80) * 64 + (b3 - 0x80))
        :: utf8Decode bs := by
  have e1 : ¬(b0 < 0x80) := by omega
  have e2 : ¬(b0 < 0xC2) := by omega
  have e3 : ¬(b0 < 0xE0) := by omega
  have e4 : ¬(b0 < 0xF0) := by omega
  simp [utf8Decode, e1, e2, e3, e4, h0', h1, h2, h3]

theorem utf8Decode_utf8Bytes (c : Char) (bs : List Nat) :
    utf8Decode (utf8Bytes c ++ bs) = c :: utf8Decode bs := by
  have hv := char_valid_nat c
  have hofn := Char.ofNat_toNat c
  simp only [utf8Bytes]
  by_cases h1 : c.toNat < 0x80
  · rw [if_pos h1, List.singleton_append, utf8Decode_one _ _ h1, hofn]
  · by_cases h2 : c.toNat < 0x800
    · rw [if_neg h1, if_pos h2, List.cons_append, List.singleton_append,
        utf8Decode_two _ _ _ (by omega) (by omega) (by unfold contOK; simp; omega)]
      have hval : (0xC0 + c.toNat / 64 - 0xC0) * 64 + (0x80 + c.toNat % 64 - 0x80) = c.toNat := by
        omega
      rw [hval, hofn]
    · by_cases h3 : c.toNat < 0x10000
      · rw [if_neg h1, if_neg h2, if_pos h3, List.cons_append, List.cons_append,
          List.singleton_append,
          utf8Decode_three _ _ _ _ (by omega) (by omega)
            (by unfold cont3OK contOK; simp; omega)
            (by unfold contOK; simp; omega)]
        have hval : (0xE0 + c.toNat / 4096 - 0xE0) * 4096 + (0x80 + c.toNat / 64 % 64 - 0x80) * 64
            + (0x80 + c.toNat % 64 - 0x80) = c.toNat := by omega
        rw [hval, hofn]
      · have h4 := char_toNat_lt c
        rw [if_neg h1, if_neg h2, if_neg h3, List.cons_append, List.cons_append,
          List.cons_append, List.singleton_append,
          utf8Decode_four _ _ _ _ _ (by omega) (by omega)
            (by unfold cont4OK contOK; simp; omega)
            (by unfold contOK; simp; omega)
            (by unfold contOK; simp; omega)]
        have hval : (0xF0 + c.toNat / 262144 - 0xF0) * 262144
            + (0x80 + c.toNat / 4096 % 64 - 0x80) * 4096
            + (0x80 + c.toNat / 64 % 64 - 0x80) * 64 + (0x80 + c.toNat % 64 - 0x80) = c.toNat := by
          omega
        rw [hval, hofn]

theorem utf8Decode_utf8Encode_append (s : JStr) (bs : List Nat) :
    utf8Decode (utf8Encode s ++ bs) = s ++ utf8Decode bs := by
  induction s with
  | nil => simp [utf8Encode]
  | cons c rest ih =>
    simp only [utf8Encode, List.append_assoc, List.cons_append, List.nil_append]
    rw [utf8Decode_utf8Bytes, ih]

theorem percentDecodeBytes_encodeByte (b : Nat) (hb : b < 256) (rest : JStr) :
    percentDecodeBytes (percentEncodeByte b ++ rest) = b :: percentDecodeBytes rest := by
  have h1 : hexVal (hexDigit (b / 16)) = some (b / 16) := hexVal_hexDigit _ (by omega)
  have h2 : hexVal (hexDigit (b % 16)) = some (b % 16) := hexVal_hexDigit _ (by omega)
  have hb' : 16 * (b / 16) + b % 16 = b := by omega
  show percentDecodeBytes ('%' :: hexDigit (b / 16) :: hexDigit (b % 16) :: rest) = _
  simp [percentDecodeBytes, h1, h2, hb']

theorem percentDecodeBytes_cons_ne (c : Char) (hc : ¬c = '%') (rest : JStr) :
    percentDecodeBytes (c :: rest) = utf8Bytes c ++ percentDecodeBytes rest := by
  rcases rest with _ | ⟨h1, _ | ⟨h2, rest2⟩⟩ <;> simp [percentDecodeBytes, hc]

theorem encodeURIComponent_mem (s : JStr) : ∀ c ∈ encodeURIComponent s, encOut c := by
  induction s with
  | nil => simp [encodeURIComponent]
  | cons c rest ih =>
    intro c' hc'
    simp only [encodeURIComponent, List.mem_append] at hc'
    rcases hc' with hc' | hc'
    · by_cases hu : unreservedURI c
      · rw [if_pos hu] at hc'
        simp only [List.mem_singleton] at hc'
        subst hc'
        exact Or.inl hu
      · rw [if_neg hu] at hc'
        simp only [List.mem_flatMap] at hc'
        obtain ⟨b, hb, hcb⟩ := hc'
        have hb256 : b < 256 := utf8Bytes_lt_256 c b hb
        simp only [percentEncodeByte, List.mem_cons, List.mem_singleton,
          List.not_mem_nil, or_false] at hcb
        rcases hcb with rfl | rfl | rfl
        · exact Or.inr (Or.inl rfl)
        · rcases hexDigit_range (b / 16) (by omega) with h | h
          · exact Or.inr (Or.inr (Or.inl h))
          · exact Or.inr (Or.inr (Or.inr h))
        · rcases hexDigit_range (b % 16) (by omega) with h | h
          · exact Or.inr (Or.inr (Or.inl h))
          · exact Or.inr (Or.inr (Or.inr h))
    · exact ih c' hc'

theorem encOut_excludes (c : Char) (h : encOut c) :
    c ≠ '?' ∧ c ≠ '&' ∧ c ≠ '=' ∧ c ≠ '+' ∧ c ≠ '/' := by
  rcases h with h | h | h | h <;>
    refine ⟨?_, ?_, ?_, ?_, ?_⟩ <;> (rintro rfl; revert h; decide)

theorem plusToSpace_encodeURIComponent (s : JStr) :
    plusToSpace (encodeURIComponent s) = encodeURIComponent s := by
  unfold plusToSpace
  have h : ∀ c ∈ encodeURIComponent s, (if c = '+' then ' ' else c) = c := by
    intro c hc
    exact if_neg (encOut_excludes c (encodeURIComponent_mem s c hc)).2.2.2.1
  calc (encodeURIComponent s).map (fun c => if c = '+' then ' ' else c)
      = (encodeURIComponent s).map id := List.map_congr_left h
    _ = encodeURIComponent s := List.map_id _

theorem percentDecodeBytes_encodeURIComponent (s : JStr) (rest : JStr) :
    percentDecodeBytes (encodeURIComponent s ++ rest) =
      utf8Encode s ++ percentDecodeBytes rest := by
  induction s with
  | nil => simp [encodeURIComponent, utf8Encode]
  | cons c tail ih =>
    simp only [encodeURIComponent, utf8Encode, List.append_assoc]
    by_cases hu : unreservedURI c
    · rw [if_pos hu, List.singleton_append]
      have hc : ¬c = '%' := by
        rintro rfl
        exact absurd hu (by decide)
      rw [percentDecodeBytes_cons_ne c hc, ih]
    · rw [if_neg hu]
      have hflat : ∀ (bs : List Nat), (∀ b ∈ bs, b < 256) → ∀ (r : JStr),
          percentDecodeBytes (bs.flatMap percentEncodeByte ++ r) =
            bs ++ percentDecodeBytes r := by
        intro bs
        induction bs with
        | nil => intro _ r; simp
        | cons b bt ihb =>
          intro hlt r
          simp only [List.flatMap_cons, List.append_assoc]
          rw [percentDecodeBytes_encodeByte b (hlt b (List.mem_cons_self b bt)),
            ihb (fun x hx => hlt x (List.mem_cons_of_mem b hx)), List.cons_append]
      rw [hflat (utf8Bytes c) (utf8Bytes_lt_256 c) _, ih]

theorem spDecode_encodeURIComponent (s : JStr) :
    spDecode (encodeURIComponent s) = s := by
  unfold spDecode
  rw [plusToSpace_encodeURIComponent]
  have h := percentDecodeBytes_encodeURIComponent s []
  rw [List.append_nil] at h
  rw [h]
  show utf8Decode (utf8Encode s ++ percentDecodeBytes []) = s
  rw [show percentDecodeBytes [] = [] from rfl, List.append_nil]
  have h2 := utf8Decode_utf8Encode_append s []
  rw [List.append_nil] at h2
  rw [h2]
  show s ++ utf8Decode [] = s
  simp [utf8Decode]

theorem addrSafe_ne (c : Char) (h : addrSafeChar c = true) : c ≠ '/' ∧ c ≠ '?' := by
  unfold addrSafeChar at h
  simp only [Bool.and_eq_true, decide_eq_true_eq, Bool.not_eq_true',
    beq_eq_false_iff_ne, ne_eq] at h
  exact ⟨h.1.2, h.2⟩

theorem addrSafe_frag (c : Char) (h : addrSafeChar c = true) : fragEncodeChar c = [c] := by
  unfold addrSafeChar at h
  simp only [Bool.and_eq_true, decide_eq_true_eq, Bool.not_eq_true',
    beq_eq_false_iff_ne, ne_eq] at h
  obtain ⟨⟨⟨⟨⟨⟨⟨hlo, hhi⟩, h34⟩, hlt⟩, hgt⟩, h96⟩, hsl⟩, hqm⟩ := h
  unfold fragEncodeChar
  rw [if_neg]
  simp only [Bool.or_eq_true, decide_eq_true_eq, beq_iff_eq]
  rintro ((((((hb | hb) | rfl) | rfl) | rfl) | rfl) | rfl)
  · omega
  · omega
  · exact absurd hlo (by decide)
  · exact absurd h34 (by simp)
  · exact absurd hlt (by simp)
  · exact absurd hgt (by simp)
  · exact absurd h96 (by simp)

theorem fragEncode_safe (addr : JStr) (h : ∀ c ∈ addr, addrSafeChar c = true) :
    fragEncode addr = addr := by
  induction addr with
  | nil => rfl
  | cons c rest ih =>
    simp only [fragEncode]
    rw [addrSafe_frag c (h c (List.mem_cons_self c rest)),
      ih (fun x hx => h x (List.mem_cons_of_mem c hx)), List.singleton_append]

theorem takeWhile_append_stop (p : Char → Bool) (l₁ l₂ : JStr)
    (h1 : ∀ c ∈ l₁, p c = true) (x : Char) (hx : p x = false) :
    (l₁ ++ x :: l₂).takeWhile p = l₁ ∧ (l₁ ++ x :: l₂).dropWhile p = x :: l₂ := by
  induction l₁ with
  | nil => simp [List.takeWhile_cons, List.dropWhile_cons, hx]
  | cons c t ih =>
    have hc : p c = true := h1 c (List.mem_cons_self c t)
    have ht := ih (fun y hy => h1 y (List.mem_cons_of_mem c hy))
    simp only [List.cons_append, List.takeWhile_cons, List.dropWhile_cons, hc]
    simp [ht.1, ht.2]

/-- Zeta-reduced computation rule for `parseRoute`. -/
theorem parseRoute_eq (h : JStr) :
    parseRoute h =
      match (splitOnChar '/' ((splitOnChar '?' (stripHash h)).headD [])).filter
          (fun s => !s.isEmpty) with
      | p0 :: p1 :: _ =>
        if p0 = str "acct" then
          Route.acct p1 (parseQS (((splitOnChar '?' (stripHash h)).drop 1).headD []))
        else Route.home (parseQS (((splitOnChar '?' (stripHash h)).drop 1).headD []))
      | _ => Route.home (parseQS (((splitOnChar '?' (stripHash h)).drop 1).headD [])) := rfl

theorem parseRoute_shareUrlHash (addr baseUrl : JStr) (h1 : addr ≠ [])
    (h2 : ∀ c ∈ addr, addrSafeChar c = true) :
    parseRoute (shareUrlHash addr baseUrl) =
      Route.acct addr (parseQS (str "base=" ++ encodeURIComponent baseUrl)) := by
  have hne : ∀ c ∈ addr, c ≠ '/' ∧ c ≠ '?' := fun c hc => addrSafe_ne c (h2 c hc)
  have hfe : fragEncode addr = addr := fragEncode_safe addr h2
  have hstrip : stripHash (shareUrlHash addr baseUrl) =
      (str "/acct/" ++ addr) ++ '?' :: (str "base=" ++ encodeURIComponent baseUrl) := by
    unfold shareUrlHash
    rw [hfe]
    calc stripHash (str "#/acct/" ++ addr ++ str "?base=" ++ encodeURIComponent baseUrl)
        = ((str "/acct/" ++ addr) ++ ('?' :: str "base=")) ++ encodeURIComponent baseUrl := rfl
      _ = (str "/acct/" ++ addr) ++ (('?' :: str "base=") ++ encodeURIComponent baseUrl) :=
          List.append_assoc _ _ _
      _ = (str "/acct/" ++ addr) ++ '?' :: (str "base=" ++ encodeURIComponent baseUrl) := rfl
  have hlit1 : ∀ c ∈ str "/acct/", c ≠ '?' := by decide
  have hnoQ1 : ∀ c ∈ str "/acct/" ++ addr, c ≠ '?' := by
    intro c hc
    rcases List.mem_append.1 hc with hc | hc
    · exact hlit1 c hc
    · exact (hne c hc).2
  have hlit2 : ∀ c ∈ str "base=", c ≠ '?' := by decide
  have hnoQ2 : ∀ c ∈ str "base=" ++ encodeURIComponent baseUrl, c ≠ '?' := by
    intro c hc
    rcases List.mem_append.1 hc with hc | hc
    · exact hlit2 c hc
    · exact (encOut_excludes c (encodeURIComponent_mem baseUrl c hc)).1
  have hsplitQ : splitOnChar '?'
      ((str "/acct/" ++ addr) ++ '?' :: (str "base=" ++ encodeURIComponent baseUrl)) =
      [str "/acct/" ++ addr, str "base=" ++ encodeURIComponent baseUrl] := by
    rw [splitOnChar_append_sep _ _ _ hnoQ1, splitOnChar_no_sep _ _ hnoQ2]
  have hsplitS : splitOnChar '/' (str "/acct/" ++ addr) = [[], str "acct", addr] := by
    have e : str "/acct/" ++ addr = '/' :: (str "acct" ++ '/' :: addr) := rfl
    rw [e, splitOnChar_sep_cons, splitOnChar_append_sep _ _ _ (by decide),
      splitOnChar_no_sep _ _ (fun c hc => (hne c hc).1)]
  obtain ⟨a0, as, rfl⟩ : ∃ a0 as, addr = a0 :: as := by
    cases addr with
    | nil => exact absurd rfl h1
    | cons a0 as => exact ⟨a0, as, rfl⟩
  have hfilter : List.filter (fun s => !s.isEmpty) [[], str "acct", a0 :: as] =
      [str "acct", a0 :: as] := rfl
  rw [parseRoute_eq, hstrip, hsplitQ]
  simp only [List.headD_cons, List.drop_succ_cons, List.drop_zero]
  rw [hsplitS, hfilter]
  simp

theorem qsGet_parseQS_base (baseUrl : JStr) :
    qsGet (parseQS (str "base=" ++ encodeURIComponent baseUrl)) (str "base") =
      some baseUrl := by
  have hlit3 : ∀ c ∈ str "base", c ≠ '&' := by decide
  have hno : ∀ c ∈ str "base" ++ '=' :: encodeURIComponent baseUrl, c ≠ '&' := by
    intro c hc
    rcases List.mem_append.1 hc with hc | hc
    · exact hlit3 c hc
    · rcases List.mem_cons.1 hc with rfl | hc
      · decide
      · exact (encOut_excludes c (encodeURIComponent_mem baseUrl c hc)).2.1
  have hsplit : splitOnChar '&' (str "base" ++ '=' :: encodeURIComponent baseUrl) =
      [str "base" ++ '=' :: encodeURIComponent baseUrl] :=
    splitOnChar_no_sep _ _ hno
  have htw := takeWhile_append_stop (fun c => !(c == '=')) (str "base")
    (encodeURIComponent baseUrl) (by decide) '=' (by decide)
  have hstrip : stripLeadQ (str "base=" ++ encodeURIComponent baseUrl) =
      str "base" ++ '=' :: encodeURIComponent baseUrl := rfl
  unfold parseQS
  rw [hstrip, hsplit]
  simp only [List.filterMap]
  rw [if_neg (by simp)]
  simp only [htw.1, htw.2, List.drop_succ_cons, List.drop_zero]
  have hdec : spDecode (str "base") = str "base" := by decide
  rw [hdec, spDecode_encodeURIComponent]
  simp [qsGet, List.find?]

/-- C4 counterexample: the round-trip claim fails as universally stated.  For
`addr = "a/b"` (and base `"x"`) the fragment is `#/acct/a/b?base=x`, and
`parseRoute` recovers only the segment `a`, not the original address. -/
theorem C4_roundtrip_cex :
    routeAddr (parseRoute (shareUrlHash (str "a/b") (str "x"))) = some (str "a") ∧
    str "a" ≠ str "a/b" := by decide

/-- C4 (amended): for every non-empty address whose characters are printable
ASCII, not escaped by the URL fragment setter, and distinct from the `/` and
`?` separators, and for every base URL string, parsing the fragment produced
by `shareUrl` yields an account route carrying exactly that address, and its
`base` query parameter decodes to exactly that base URL. -/
theorem C4_roundtrip_amended (addr baseUrl : JStr) (h1 : addr ≠ [])
    (h2 : ∀ c ∈ addr, addrSafeChar c = true) :
    routeAddr (parseRoute (shareUrlHash addr baseUrl)) = some addr ∧
    qsGet (routeQS (parseRoute (shareUrlHash addr baseUrl))) (str "base") = some baseUrl := by
  rw [parseRoute_shareUrlHash addr baseUrl h1 h2]
  exact ⟨rfl, qsGet_parseQS_base baseUrl⟩

/-- C4 witness: the amended round trip evaluated at the spec's own scenario,
address `0xABCD` and base URL `https://example.test`. -/
theorem C4_roundtrip_witness :
    routeAddr (parseRoute (shareUrlHash (str "0xABCD") (str "https://example.test"))) =
      some (str "0xABCD") ∧
    qsGet (routeQS (parseRoute (shareUrlHash (str "0xABCD") (str "https://example.test"))))
      (str "base") = some (str "https://example.test") :=
  C4_roundtrip_amended (str "0xABCD") (str "https://example.test") (by decide) (by decide)

/-- C8: percent formatting normalises the fractional and the already-scaled
conventions identically: for every finite `v` with `|v| <= 1` and
`|v * 100| > 1`, `pct v` equals `pct (v * 100)`, and both render `v * 100`
with two decimals and a trailing percent sign.  (Both calls format the very
same product, so the identity holds in exact arithmetic just as it does for
the shared double produced by the source.) -/
theorem C8_pct_normalisation (q : ℚ) (h1 : |q| <= 1) (h2 : 1 < |q * 100|) :
    pct (JNum.fin q) = pct (JNum.fin (q * 100)) ∧
    pct (JNum.fin q) = jsToFixed 2 (q * 100) ++ ['%'] := by
  have hq : ¬|q * 100| <= 1 := not_le.mpr h2
  show jsToFixed 2 (if |q| <= 1 then q * 100 else q) ++ ['%'] =
      jsToFixed 2 (if |q * 100| <= 1 then q * 100 * 100 else q * 100) ++ ['%'] ∧
    jsToFixed 2 (if |q| <= 1 then q * 100 else q) ++ ['%'] = jsToFixed 2 (q * 100) ++ ['%']
  rw [if_pos h1, if_neg hq]
  exact ⟨rfl, rfl⟩

/-- C8 witness: `pct` at `0.5` and at `50` agree (both `50.00%`). -/
theorem C8_pct_witness :
    pct (JNum.fin (1 / 2)) = pct (JNum.fin (1 / 2 * 100)) ∧
    pct (JNum.fin (1 / 2)) = jsToFixed 2 (1 / 2 * 100) ++ ['%'] :=
  C8_pct_normalisation (1 / 2) (by rw [abs_of_pos] <;> norm_num) (by rw [abs_of_pos] <;> norm_num)

/-- C9: for every null/undefined input and every input whose numeric coercion
is non-finite, `num` returns the empty string for every fraction-digit count —
never the string `NaN`, never `0`. -/
theorem C9_num_nonfinite_empty (v : JNum) (d : Nat) (h : v.nonFinite = true) :
    num v d = [] ∧ num v d ≠ str "NaN" ∧ num v d ≠ str "0" := by
  have hn : ([] : JStr) ≠ str "NaN" := by decide
  have hz : ([] : JStr) ≠ str "0" := by decide
  cases v with
  | fin q => exact absurd h (by simp [JNum.nonFinite])
  | undef => exact ⟨rfl, hn, hz⟩
  | nullv => exact ⟨rfl, hn, hz⟩
  | nan => exact ⟨rfl, hn, hz⟩
  | posInf => exact ⟨rfl, hn, hz⟩
  | negInf => exact ⟨rfl, hn, hz⟩

/-- C9 witness: `num` at `NaN` with the default two fraction digits. -/
theorem C9_num_witness :
    num JNum.nan 2 = [] ∧ num JNum.nan 2 ≠ str "NaN" ∧ num JNum.nan 2 ≠ str "0" :=
  C9_num_nonfinite_empty JNum.nan 2 (by decide)

theorem errDisplay_ne_nil (m : JStr) : errDisplay m ≠ [] := by
  unfold errDisplay
  split
  · decide
  · assumption

/-- C5: `fetchJson` succeeds only when the HTTP status is in the success
range 200-299; any other status fails with a message that is exactly
`HTTP <status>`; with a success status a JSON body is returned parsed, and a
non-JSON body fails with the parse error. -/
theorem C5_fetchJson_status (status : Nat) (body : BodyParse) :
    ((∃ j, fetchJson (NetBehavior.http status body) = Except.ok j) → httpOk status = true) ∧
    (httpOk status = false →
      fetchJson (NetBehavior.http status body) = Except.error (strHTTP status)) ∧
    (httpOk status = true → ∀ j, body = BodyParse.parsed j →
      fetchJson (NetBehavior.http status body) = Except.ok j) ∧
    (httpOk status = true → ∀ m, body = BodyParse.invalid m →
      fetchJson (NetBehavior.http status body) = Except.error m) := by
  cases body with
  | parsed j0 =>
    refine ⟨?_, ?_, ?_, ?_⟩
    · rintro ⟨j, hj⟩
      cases hok : httpOk status
      · simp [fetchJson, hok] at hj
      · rfl
    · intro hok
      simp [fetchJson, hok]
    · intro hok j heq
      cases heq
      simp [fetchJson, hok]
    · intro hok m heq
      cases heq
  | invalid m0 =>
    refine ⟨?_, ?_, ?_, ?_⟩
    · rintro ⟨j, hj⟩
      cases hok : httpOk status
      · simp [fetchJson, hok] at hj
      · rfl
    · intro hok
      simp [fetchJson, hok]
    · intro hok j heq
      cases heq
    · intro hok m heq
      cases heq
      simp [fetchJson, hok]

/-- C5 witness: status 404 yields exactly `HTTP 404`; status 200 with a JSON
body yields the parsed payload. -/
theorem C5_fetchJson_witness :
    fetchJson (NetBehavior.http 404 (BodyParse.parsed sampleResp)) =
      Except.error (strHTTP 404) ∧
    fetchJson (NetBehavior.http 200 (BodyParse.parsed sampleResp)) = Except.ok sampleResp :=
  ⟨(C5_fetchJson_status 404 (BodyParse.parsed sampleResp)).2.1 (by decide),
   (C5_fetchJson_status 200 (BodyParse.parsed sampleResp)).2.2.1 (by decide) sampleResp rfl⟩

/-- C6: for every prior state and every outcome of the fetch — success, HTTP
failure, JSON parse failure, timeout/abort, network failure, or an `ok:false`
payload — the loading flag is cleared when `run` completes, and on every
failure outcome a non-empty error message is stored for display. -/
theorem C6_run_clears_loading (st : DashState) (n : NetBehavior) :
    (run st n).loading = false ∧
    (fetchFails n = true → (run st n).error ≠ []) := by
  unfold run runSettle fetchFails
  cases hf : fetchJson n with
  | ok j =>
    cases hok : j.ok
    · simp [hok, errDisplay_ne_nil]
    · simp [hok]
  | error m => simp [errDisplay_ne_nil]

/-- C6 witness: an HTTP 500 failure clears the loading flag and stores a
non-empty error. -/
theorem C6_run_witness :
    (run (initDashState [] none) (NetBehavior.http 500 (BodyParse.parsed sampleResp))).loading
        = false ∧
    (run (initDashState [] none) (NetBehavior.http 500 (BodyParse.parsed sampleResp))).error
        ≠ [] :=
  ⟨(C6_run_clears_loading (initDashState [] none)
      (NetBehavior.http 500 (BodyParse.parsed sampleResp))).1,
   (C6_run_clears_loading (initDashState [] none)
      (NetBehavior.http 500 (BodyParse.parsed sampleResp))).2 (by decide)⟩

theorem renderDashboard_no_tables_of_data_none (st : DashState) (h : st.data = none) :
    (∀ r, UIElem.positionsTable r ∉ renderDashboard st) ∧
    (∀ r, UIElem.closedTable r ∉ renderDashboard st) := by
  unfold renderDashboard
  rw [h]
  constructor <;> intro r <;> simp

/-- C2 counterexample: with the response `{ok:false, error:""}` — the `error`
field present but empty — the displayed message is the fallback `ok=false`,
not the response's `error` field, refuting the claim that the fallback is used
only when the field is absent. -/
theorem C2_okfalse_cex :
    (JsonResp.mk false (some []) [] []).error = some [] ∧
    (run (initDashState [] none)
        (NetBehavior.http 200 (BodyParse.parsed (JsonResp.mk false (some []) [] [])))).error
      = str "ok=false" ∧
    str "ok=false" ≠ [] := by decide

/-- C2 (amended): when `run` receives an HTTP-success JSON response whose `ok`
field is false, the displayed error text is exactly the response's `error`
field when that field is present and non-empty, and the generic fallback
`ok=false` when it is absent or empty; the data slot stays cleared, so neither
the positions table nor the closed-trades table is rendered.  The failure is
modelled on the parsed-body path, distinct from the HTTP / network / timeout
constructors. -/
theorem C2_okfalse_error_display (st : DashState) (status : Nat) (j : JsonResp)
    (hok : httpOk status = true) (hj : j.ok = false) :
    (∀ e, j.error = some e → e ≠ [] →
      (run st (NetBehavior.http status (BodyParse.parsed j))).error = e) ∧
    ((j.error = none ∨ j.error = some []) →
      (run st (NetBehavior.http status (BodyParse.parsed j))).error = str "ok=false") ∧
    (run st (NetBehavior.http status (BodyParse.parsed j))).data = none ∧
    (∀ r, UIElem.positionsTable r ∉
      renderDashboard (run st (NetBehavior.http status (BodyParse.parsed j)))) ∧
    (∀ r, UIElem.closedTable r ∉
      renderDashboard (run st (NetBehavior.http status (BodyParse.parsed j)))) := by
  have hfetch : fetchJson (NetBehavior.http status (BodyParse.parsed j)) = Except.ok j := by
    simp [fetchJson, hok]
  have herr : (run st (NetBehavior.http status (BodyParse.parsed j))).error =
      errDisplay (jsOrS j.error (str "ok=false")) := by
    unfold run runSettle
    rw [hfetch]
    simp [hj]
  have hdata : (run st (NetBehavior.http status (BodyParse.parsed j))).data = none := by
    unfold run runSettle
    rw [hfetch]
    simp [hj, runStart]
  refine ⟨?_, ?_, hdata, ?_, ?_⟩
  · intro e he hne
    rw [herr, he]
    unfold jsOrS errDisplay
    simp [hne]
  · intro habs
    rw [herr]
    rcases habs with h | h <;> rw [h] <;> decide
  · exact (renderDashboard_no_tables_of_data_none _ hdata).1
  · exact (renderDashboard_no_tables_of_data_none _ hdata).2

/-- C2 witness: the spec's scenario — a response `{ok:false, error:"bad
account"}` on a success status sets the displayed error to exactly
`bad account`. -/
theorem C2_okfalse_witness :
    (run (initDashState [] none)
        (NetBehavior.http 200 (BodyParse.parsed respBadAccount))).error = str "bad account" :=
  (C2_okfalse_error_display (initDashState [] none) 200 respBadAccount (by decide)
      (by decide)).1 (str "bad account") rfl (by decide)

/-- C10: in every dashboard state, the Positions CSV control renders exactly
when the closed-trades toggle and the positions toggle are both on; with the
closed toggle off and the positions toggle on, the Positions CSV control is
absent even though the positions table still renders whenever data is
present. -/
theorem C10_positions_csv_gating (st : DashState) :
    (UIElem.positionsCsvButton ∈ renderDashboard st ↔
      st.includeClosed = true ∧ st.includePositions = true) ∧
    (st.includeClosed = false → st.includePositions = true →
      UIElem.positionsCsvButton ∉ renderDashboard st ∧
      ∀ j, st.data = some j →
        UIElem.positionsTable j.positions ∈ renderDashboard st) := by
  constructor
  · unfold renderDashboard
    cases hc : st.includeClosed <;> cases hp : st.includePositions <;>
      cases hd : st.data <;> simp
  · intro hc hp
    constructor
    · unfold renderDashboard
      cases hd : st.data <;> simp [hc]
    · intro j hd
      unfold renderDashboard
      rw [hd]
      simp [hp]

/-- C10 witness: with data loaded, positions on and closed off, the Positions
CSV control is gone while the positions table still renders. -/
theorem C10_positions_csv_witness :
    UIElem.positionsCsvButton ∉ renderDashboard stClosedOff ∧
    UIElem.positionsTable sampleResp.positions ∈ renderDashboard stClosedOff :=
  ⟨((C10_positions_csv_gating stClosedOff).2 rfl rfl).1,
   ((C10_positions_csv_gating stClosedOff).2 rfl rfl).2 sampleResp rfl⟩

/-- C7 (code defect): after navigating from account `0xA` to `0xB` with a
fetch pending, the response issued for `0xA` is applied unconditionally —
`run()` has no staleness guard — so the view routed at `0xB` holds and renders
`0xA`'s data.  This contradicts the claim's required guard; the spec itself
(§9) notes the source does not guard this hazard. -/
theorem C7_stale_response_applied :
    staleTrace.routeAddr = some (str "0xB") ∧
    staleTrace.dash.data = some staleResponse ∧
    UIElem.positionsTable staleResponse.positions ∈ renderDashboard staleTrace.dash := by
  decide

/-- C3 counterexample: a `period=banana` query parameter becomes the initial
period unchanged — the persisted preference is never consulted and the value
is not constrained to the eight built-in periods. -/
theorem C3_period_cex :
    initPeriod [(str "period", str "banana")] = str "banana" ∧
    str "banana" ∉ BUILT_IN_PERIODS := by decide

/-- C3 (amended): on mount the base URL resolves by the precedence
query-string value → persisted preference → built-in default (empty strings
being falsy at each stage); the period resolves from the query-string value
when present and non-empty and otherwise defaults to `week`, consulting no
persisted preference and enforcing no membership in the eight built-in periods
(which only populate the selection control). -/
theorem C3_mount_resolution (qs : List (JStr × JStr)) (storedBase : Option JStr) :
    (∀ b, qsGet qs (str "base") = some b → b ≠ [] → initBaseUrl qs storedBase = b) ∧
    ((qsGet qs (str "base") = none ∨ qsGet qs (str "base") = some []) →
      ∀ s, storedBase = some s → s ≠ [] → initBaseUrl qs storedBase = s) ∧
    ((qsGet qs (str "base") = none ∨ qsGet qs (str "base") = some []) →
      (storedBase = none ∨ storedBase = some []) →
      initBaseUrl qs storedBase = DEFAULT_BASE) ∧
    (∀ p, qsGet qs (str "period") = some p → p ≠ [] → initPeriod qs = p) ∧
    ((qsGet qs (str "period") = none ∨ qsGet qs (str "period") = some []) →
      initPeriod qs = str "week") := by
  refine ⟨?_, ?_, ?_, ?_, ?_⟩
  · intro b hb hbne
    unfold initBaseUrl
    rw [hb]
    unfold jsOrS
    simp [hbne]
  · rintro (h | h) s hs hsne <;>
      (unfold initBaseUrl; rw [h, hs]; unfold jsOrS; simp [hsne])
  · rintro (h | h) (h2 | h2) <;>
      (unfold initBaseUrl; rw [h, h2]; unfold jsOrS; simp)
  · intro p hp hpne
    unfold initPeriod
    rw [hp]
    unfold jsOrS
    simp [hpne]
  · rintro (h | h) <;> (unfold initPeriod; rw [h]; unfold jsOrS; simp)

/-- C3 witness: query-string values win for both settings. -/
theorem C3_mount_witness :
    initBaseUrl [(str "base", str "b"), (str "period", str "month")] (some (str "s"))
        = str "b" ∧
    initPeriod [(str "base", str "b"), (str "period", str "month")] = str "month" :=
  ⟨(C3_mount_resolution [(str "base", str "b"), (str "period", str "month")]
      (some (str "s"))).1 (str "b") (by decide) (by decide),
   (C3_mount_resolution [(str "base", str "b"), (str "period", str "month")]
      (some (str "s"))).2.2.2.1 (str "month") (by decide) (by decide)⟩

end PerpScan



